import Mathlib

/-!
Verification of the puzzle engine of bevy_spelling_tiles (src/main.rs).

Strings are modelled as lists of bytes (Nat values); the Rust byte literals
65..90 are the uppercase letters and 97..122 the lowercase ones.  A Rust
panic is modelled as the value none of an Option result.  All bit masks stay
below 2 ^ 26, so Nat arithmetic agrees with the u32 arithmetic of the source.
-/

namespace SpellingTiles

/-- A byte is an ASCII letter, mirroring u8::is_ascii_alphabetic. -/
def isAsciiAlphabetic (c : Nat) : Bool :=
  (65 ≤ c && c ≤ 90) || (97 ≤ c && c ≤ 122)

/-- Function alphabet_index of src/main.rs: maps an ASCII letter byte to its
index 0..25; the panic branch (not a letter) is modelled as none. -/
def alphabetIndex (c : Nat) : Option Nat :=
  if 65 ≤ c && c ≤ 90 then some (c - 65)
  else if 97 ≤ c && c ≤ 122 then some (c - 97)
  else none

/-- Loop of word_to_bits with its accumulator val; a panic raised by
alphabet_index inside the loop surfaces as none. -/
def wordToBitsAux (val : Nat) : List Nat → Option Nat
  | [] => some val
  | c :: rest =>
    match alphabetIndex c with
    | some i => wordToBitsAux (val ||| (1 <<< i)) rest
    | none => none

/-- Function word_to_bits of src/main.rs.  The shift amounts stay below 26,
so the u32 value never overflows and Nat arithmetic is faithful. -/
def wordToBits (word : List Nat) : Option Nat :=
  wordToBitsAux 0 word

/-- Method u32::count_ones applied to a value below 2 ^ 32. -/
def countOnes (n : Nat) : Nat :=
  ((List.range 32).filter (fun i => n.testBit i)).length

/-- Function is_valid_word of src/main.rs. -/
def isValidWord (word : List Nat) : Bool :=
  if word.length < 4 then false
  else word.all isAsciiAlphabetic

/-- Function bits_to_letters of src/main.rs.  The Rust loop iterates the
EXCLUSIVE char range from A to Z, so it visits only the 25 letters A..Y
(indices 0..24): bit 25, the letter Z, is never emitted. -/
def bitsToLetters (bits : Nat) : List Nat :=
  (List.range 25).filterMap
    (fun i => if bits &&& (1 <<< i) != 0 then some (65 + i) else none)

/-- Resource WordList of src/main.rs. -/
structure WordList where
  all_valid_words : List (List Nat)
  potential_pangrams : List (List Nat)
  deriving DecidableEq

/-- Resource GameState of src/main.rs; the char field required_letter is kept
as its byte value. -/
structure GameState where
  target_string : List Nat
  target_bits : Nat
  required_letter : Nat
  required_bit : Nat
  correct_words : List (List Nat)
  deriving DecidableEq

/-- Pangram test applied by setup_word_list to a token already known valid:
word_to_bits(word).count_ones() == 7.  The Option.any wrapper only serves the
panic model; under the is_valid_word guard the encoding always succeeds. -/
def isPangramToken (word : List Nat) : Bool :=
  (wordToBits word).any (fun b => countOnes b == 7)

/-- One iteration of the loop in setup_word_list of src/main.rs.  Note that
the token is pushed verbatim, not lower-cased. -/
def addToken (wl : WordList) (word : List Nat) : WordList :=
  if isValidWord word then
    { all_valid_words := wl.all_valid_words ++ [word]
      potential_pangrams :=
        if isPangramToken word then wl.potential_pangrams ++ [word]
        else wl.potential_pangrams }
  else wl

/-- Function setup_word_list of src/main.rs, applied to the whitespace-split
tokens of the word file, starting from the empty resource installed in main. -/
def setupWordList (tokens : List (List Nat)) : WordList :=
  tokens.foldl addToken ⟨[], []⟩

/-- Method u8::to_ascii_lowercase on one byte. -/
def toAsciiLowerByte (c : Nat) : Nat :=
  if 65 ≤ c && c ≤ 90 then c + 32 else c

/-- Method str::to_ascii_lowercase, byte by byte. -/
def toAsciiLower (word : List Nat) : List Nat :=
  word.map toAsciiLowerByte

/-- Method u8::to_ascii_uppercase on one byte. -/
def toAsciiUpperByte (c : Nat) : Nat :=
  if 97 ≤ c && c ≤ 122 then c - 32 else c

/-- Method str::to_uppercase as it acts on the ASCII-only words of the
dictionary: byte-wise uppercasing. -/
def toAsciiUpper (word : List Nat) : List Nat :=
  word.map toAsciiUpperByte

/-- Function check_word of src/main.rs, returning the triple
(accepted, reason, pangram); none models the panic that word_to_bits raises
on a non-letter byte. -/
def checkWord (word : List Nat) (gamestate : GameState) (wordlist : WordList) :
    Option (Bool × String × Bool) :=
  if word.length < 4 then
    some (false, "is too short!", false)
  else
    match wordToBits word with
    | none => none
    | some word_bits =>
      if (word_bits &&& gamestate.required_bit != 0) &&
          ((word_bits ^^^ gamestate.target_bits) &&& word_bits == 0) then
        if wordlist.all_valid_words.contains (toAsciiLower word) then
          if gamestate.correct_words.contains (toAsciiLower word) then
            some (false, "was already found", false)
          else
            some (true, "hap :)", countOnes word_bits == 7)
        else
          some (false, "is not in word list", false)
      else
        some (false, "does not use required letters", false)

/-- The ledger append performed by show_correct_words of src/main.rs:
the accepted word is lower-cased and pushed onto correct_words, with no
duplicate check of its own. -/
def recordWord (correct_words : List (List Nat)) (word : List Nat) :
    List (List Nat) :=
  correct_words ++ [toAsciiLower word]

/-- Target computation of setup_goals of src/main.rs: the chosen pangram
candidate is upper-cased, encoded to target_bits, and decoded back through
bits_to_letters to obtain target_string (before the in-place shuffle, which
permutes the same characters). -/
def setupGoalsTargets (candidate : List Nat) : Option (Nat × List Nat) :=
  (wordToBits (toAsciiUpper candidate)).map (fun bits => (bits, bitsToLetters bits))

/-- Method SliceRandom::choose as used by setup_goals: it returns none exactly
when the slice of pangram candidates is empty; the random draw is abstracted
into the index parameter k. -/
def choosePangram (wl : WordList) (k : Nat) : Option (List Nat) :=
  wl.potential_pangrams.get? k

/-- Rejection categories named by the specification (section 7). -/
inductive RejectionReason where
  | tooShort
  | missingRequiredLetter
  | usesDisallowedLetter
  | notInDictionary
  | alreadyFound
  deriving DecidableEq

/-- Outcome of validating one guess, as the specification words it. -/
inductive GuessOutcome where
  | accepted (is_pangram : Bool)
  | rejected (reason : RejectionReason)
  deriving DecidableEq

/-- Subset test on letter masks, in the form the code uses inside check_word:
(word_bits ^ target_bits) & word_bits == 0. -/
def isSubsetOf (word_bits target_bits : Nat) : Bool :=
  ((word_bits ^^^ target_bits) &&& word_bits) == 0

/-- The GuessValidator cascade exactly as the specification words it
(section 4.4, steps 1 to 7), for comparison with checkWord; none models the
panic of encode on a non-letter byte at step 2. -/
def validateGuessSpec (guess : List Nat) (gamestate : GameState) (wordlist : WordList) :
    Option GuessOutcome :=
  if guess.length < 4 then some (.rejected .tooShort)
  else
    match wordToBits guess with
    | none => none
    | some word_bits =>
      if word_bits &&& gamestate.required_bit == 0 then
        some (.rejected .missingRequiredLetter)
      else if !(isSubsetOf word_bits gamestate.target_bits) then
        some (.rejected .usesDisallowedLetter)
      else if !(wordlist.all_valid_words.contains (toAsciiLower guess)) then
        some (.rejected .notInDictionary)
      else if gamestate.correct_words.contains (toAsciiLower guess) then
        some (.rejected .alreadyFound)
      else
        some (.accepted (countOnes word_bits == 7))

/-- Rendering of an abstract outcome into the concrete triple produced by
check_word; the code reports one combined message for the two letter-related
rejections. -/
def renderOutcome : GuessOutcome → Bool × String × Bool
  | .accepted p => (true, "hap :)", p)
  | .rejected .tooShort => (false, "is too short!", false)
  | .rejected .missingRequiredLetter => (false, "does not use required letters", false)
  | .rejected .usesDisallowedLetter => (false, "does not use required letters", false)
  | .rejected .notInDictionary => (false, "is not in word list", false)
  | .rejected .alreadyFound => (false, "was already found", false)

/-! ## Helper lemmas shared by several results -/

/-- A subset in the form the code tests it gives the bitwise implication. -/
lemma isSubsetOf_testBit {w t : Nat} (h : isSubsetOf w t = true) :
    ∀ i, w.testBit i = true → t.testBit i = true := by
  intro i hw
  have h0 : (w ^^^ t) &&& w = 0 := by simpa [isSubsetOf] using h
  by_contra hne
  have ht : t.testBit i = false := by
    cases hb : t.testBit i
    · rfl
    · exact absurd hb hne
  have : ((w ^^^ t) &&& w).testBit i = true := by
    simp [Nat.testBit_and, Nat.testBit_xor, hw, ht]
  rw [h0] at this
  simp at this

/-- Closed form of the setup_word_list loop: the two vectors are the filters of
the token stream, appended to whatever the resource already held. -/
lemma setupWordList_foldl (tokens : List (List Nat)) (wl : WordList) :
    tokens.foldl addToken wl =
      ⟨wl.all_valid_words ++ tokens.filter isValidWord,
        wl.potential_pangrams ++
          tokens.filter (fun w => isValidWord w && isPangramToken w)⟩ := by
  induction tokens generalizing wl with
  | nil => simp
  | cons w rest ih =>
    simp only [List.foldl_cons, ih, List.filter_cons]
    by_cases hv : isValidWord w
    · by_cases hp : isPangramToken w
      · simp [addToken, hv, hp]
      · simp [addToken, hv, hp]
    · simp [addToken, hv]

/-- A guess that check_word accepts is not yet in the correct_words ledger. -/
lemma checkWord_accepted_not_found {word : List Nat} {gs : GameState} {wl : WordList}
    {r : String} {p : Bool} (hacc : checkWord word gs wl = some (true, r, p)) :
    toAsciiLower word ∉ gs.correct_words := by
  unfold checkWord at hacc
  split at hacc
  · simp at hacc
  · split at hacc
    · simp at hacc
    · split at hacc
      · split at hacc
        · split at hacc
          · simp at hacc
          · next hfound => simpa using hfound
        · simp at hacc
      · simp at hacc

/-- A non-letter byte anywhere in the word makes the word_to_bits loop panic,
whatever the accumulator holds at that point. -/
lemma wordToBitsAux_none {word : List Nat} {c : Nat} (hc : c ∈ word)
    (hnl : alphabetIndex c = none) : ∀ val, wordToBitsAux val word = none := by
  induction word with
  | nil => cases hc
  | cons d rest ih =>
    intro val
    rcases List.mem_cons.mp hc with hd | hdr
    · subst hd
      simp [wordToBitsAux, hnl]
    · unfold wordToBitsAux
      cases hdx : alphabetIndex d with
      | none => rfl
      | some i => exact ih hdr _

/-! ## Claim theorems -/

/-- C1: check_word applies the checks of the specification cascade in
short-circuit order and returns the first failure: too short, then missing
required letter, then disallowed letter, then not in dictionary, then already
found, and otherwise accepts with the pangram flag set exactly when the mask
has seven bits.  The code prints one combined message for the two
letter-related rejections, which renderOutcome makes explicit. -/
theorem check_word_matches_spec_cascade (word : List Nat) (gs : GameState) (wl : WordList) :
    checkWord word gs wl = (validateGuessSpec word gs wl).map renderOutcome := by
  unfold checkWord validateGuessSpec
  by_cases hlen : word.length < 4
  · simp [hlen, renderOutcome]
  · simp only [if_neg hlen]
    cases hbits : wordToBits word with
    | none => simp
    | some b =>
      simp only [Option.map]
      cases hreq : (b &&& gs.required_bit == 0) with
      | true =>
        have hreq2 : b &&& gs.required_bit = 0 := by simpa using hreq
        simp [hreq2, renderOutcome]
      | false =>
        have hreq2 : ¬ b &&& gs.required_bit = 0 := by simpa using hreq
        cases hsub : ((b ^^^ gs.target_bits) &&& b == 0) with
        | false =>
          have hsub2 : ¬ (b ^^^ gs.target_bits) &&& b = 0 := by simpa using hsub
          simp [hreq2, hsub2, isSubsetOf, renderOutcome]
        | true =>
          have hsub2 : (b ^^^ gs.target_bits) &&& b = 0 := by simpa using hsub
          cases hdict : wl.all_valid_words.contains (toAsciiLower word) with
          | false =>
            have hdict2 : ¬ toAsciiLower word ∈ wl.all_valid_words := by
              simpa using hdict
            simp [hreq2, hsub2, hdict2, isSubsetOf, renderOutcome]
          | true =>
            have hdict2 : toAsciiLower word ∈ wl.all_valid_words := by
              simpa using hdict
            cases hfound : gs.correct_words.contains (toAsciiLower word) with
            | true =>
              have hfound2 : toAsciiLower word ∈ gs.correct_words := by
                simpa using hfound
              simp [hreq2, hsub2, hdict2, hfound2, isSubsetOf, renderOutcome]
            | false =>
              have hfound2 : ¬ toAsciiLower word ∈ gs.correct_words := by
                simpa using hfound
              simp [hreq2, hsub2, hdict2, hfound2, isSubsetOf, renderOutcome]

/-- C2: evaluation of the code at the word jazz, bytes [106, 97, 122, 122].
Its mask has three bits set (a, j, z), but bits_to_letters returns only the two
letters A and J: the exclusive Rust range in its loop never emits the letter Z,
contradicting the claim that every letter of the word appears in the output. -/
theorem bits_to_letters_drops_z :
    (wordToBits [106, 97, 122, 122]).map bitsToLetters = some [65, 74] ∧
    (wordToBits [106, 97, 122, 122]).map countOnes = some 3 := by
  constructor
  · decide
  · decide

/-- C3: on letter masks, being a subset in the form the code tests it while
both masks have population count seven forces the masks to be equal, so the
pangram flag needs no separate comparison with target_bits. -/
theorem seven_bit_subset_is_equal (w t : Nat) (hw : w < 2 ^ 26) (ht : t < 2 ^ 26)
    (hsub : isSubsetOf w t = true) (hcw : countOnes w = 7) (hct : countOnes t = 7) :
    w = t := by
  have himp := isSubsetOf_testBit hsub
  have hsubl : List.Sublist ((List.range 32).filter (fun i => w.testBit i))
      ((List.range 32).filter (fun i => t.testBit i)) :=
    List.monotone_filter_right _ (fun a ha => himp a ha)
  have hlen : ((List.range 32).filter (fun i => w.testBit i)).length =
      ((List.range 32).filter (fun i => t.testBit i)).length := by
    have : countOnes w = countOnes t := hcw.trans hct.symm
    simpa [countOnes] using this
  have hfe := hsubl.eq_of_length hlen
  apply Nat.eq_of_testBit_eq
  intro i
  by_cases hi : i < 32
  · cases hwi : w.testBit i with
    | true => rw [himp i hwi]
    | false =>
      cases hti : t.testBit i with
      | false => rfl
      | true =>
        have hmem : i ∈ (List.range 32).filter (fun j => t.testBit j) := by
          simp [List.mem_filter, List.mem_range, hi, hti]
        rw [← hfe] at hmem
        simp [List.mem_filter, hwi] at hmem
  · have h2w : w < 2 ^ i := lt_of_lt_of_le hw
      (Nat.pow_le_pow_right (by norm_num) (by omega))
    have h2t : t < 2 ^ i := lt_of_lt_of_le ht
      (Nat.pow_le_pow_right (by norm_num) (by omega))
    rw [Nat.testBit_lt_two_pow h2w, Nat.testBit_lt_two_pow h2t]

/-- Witness for C3 at the concrete seven-bit mask 127. -/
theorem seven_bit_subset_is_equal_witness :
    (127 : Nat) < 2 ^ 26 ∧ isSubsetOf 127 127 = true ∧ countOnes 127 = 7 ∧
      (127 : Nat) = 127 :=
  ⟨by decide, by decide, by decide,
    seven_bit_subset_is_equal 127 127 (by decide) (by decide) (by decide)
      (by decide) (by decide)⟩

/-- C4: evaluation of the target computation of setup_goals at the pangram
candidate zombify, bytes [122, 111, 109, 98, 105, 102, 121].  The candidate has
exactly seven distinct letters (the mask has population count seven), yet the
resulting target_string has only six characters, because bits_to_letters never
emits the letter Z; the claim requires exactly seven unique characters. -/
theorem setup_goals_six_letters_on_z_pangram :
    (setupGoalsTargets [122, 111, 109, 98, 105, 102, 121]).map
      (fun p => (countOnes p.1, p.2.length)) = some (7, 6) := by
  decide

/-- C5 counterexample: the valid token OTTER, bytes [79, 84, 84, 69, 82], is
inserted into all_valid_words verbatim, not lower-cased as the claim states. -/
theorem setup_word_list_keeps_case :
    (setupWordList [[79, 84, 84, 69, 82]]).all_valid_words = [[79, 84, 84, 69, 82]] ∧
    (setupWordList [[79, 84, 84, 69, 82]]).all_valid_words ≠
      [toAsciiLower [79, 84, 84, 69, 82]] := by
  constructor
  · decide
  · decide

/-- C5 amended: setup_word_list puts into all_valid_words exactly the tokens,
kept verbatim rather than lower-cased, of length at least four whose bytes are
all ASCII letters; potential_pangrams holds exactly those of them whose mask
has seven bits set, and is therefore a subset of all_valid_words. -/
theorem setup_word_list_partitions (tokens : List (List Nat)) :
    (setupWordList tokens).all_valid_words = tokens.filter isValidWord ∧
    (setupWordList tokens).potential_pangrams =
      tokens.filter (fun w => isValidWord w && isPangramToken w) ∧
    ∀ w, w ∈ (setupWordList tokens).potential_pangrams →
      w ∈ (setupWordList tokens).all_valid_words := by
  have h := setupWordList_foldl tokens ⟨[], []⟩
  unfold setupWordList
  rw [h]
  refine ⟨by simp, by simp, ?_⟩
  intro w hw
  simp only [List.nil_append, List.mem_filter] at hw ⊢
  exact ⟨hw.1, (Bool.and_eq_true _ _ |>.mp hw.2).1⟩

/-- Witness for C5 at the single pangram token plastic. -/
theorem setup_word_list_partitions_witness :
    [112, 108, 97, 115, 116, 105, 99] ∈
      (setupWordList [[112, 108, 97, 115, 116, 105, 99]]).potential_pangrams ∧
    [112, 108, 97, 115, 116, 105, 99] ∈
      (setupWordList [[112, 108, 97, 115, 116, 105, 99]]).all_valid_words :=
  ⟨by decide,
    (setup_word_list_partitions [[112, 108, 97, 115, 116, 105, 99]]).2.2 _ (by decide)⟩

/-- C6 counterexample: the ledger append performs no duplicate check of its
own; recording otter twice in a row yields a ledger with a duplicate entry and
no failure, refuting the claim that the append itself rejects duplicates. -/
theorem record_word_appends_duplicate :
    recordWord (recordWord [] [111, 116, 116, 101, 114]) [111, 116, 116, 101, 114] =
      [[111, 116, 116, 101, 114], [111, 116, 116, 101, 114]] ∧
    ¬ (recordWord (recordWord [] [111, 116, 116, 101, 114])
        [111, 116, 116, 101, 114]).Nodup := by
  constructor
  · decide
  · decide

/-- C6 amended: the ledger append of show_correct_words lower-cases the word
and appends it unconditionally; it has no duplicate check of its own, so the
no-duplicates invariant holds only through prior validation: a word that
check_word accepted is absent from the ledger, hence appending it preserves
distinctness. -/
theorem record_word_lowercase_append_nodup (gs : GameState) (wl : WordList)
    (word : List Nat) (r : String) (p : Bool)
    (hacc : checkWord word gs wl = some (true, r, p))
    (hnd : gs.correct_words.Nodup) :
    recordWord gs.correct_words word = gs.correct_words ++ [toAsciiLower word] ∧
    (recordWord gs.correct_words word).Nodup := by
  refine ⟨rfl, ?_⟩
  have hnm := checkWord_accepted_not_found hacc
  unfold recordWord
  simp [List.nodup_append, hnd, hnm]

/-- Witness for C6: accepting and recording otter on a fresh ledger. -/
theorem record_word_lowercase_append_nodup_witness :
    checkWord [111, 116, 116, 101, 114] ⟨[], 671760, 111, 16384, []⟩
      ⟨[[111, 116, 116, 101, 114]], []⟩ = some (true, "hap :)", false) ∧
    (recordWord (GameState.mk [] 671760 111 16384 []).correct_words
      [111, 116, 116, 101, 114]).Nodup :=
  ⟨by decide,
    (record_word_lowercase_append_nodup (GameState.mk [] 671760 111 16384 [])
      (WordList.mk [[111, 116, 116, 101, 114]] []) [111, 116, 116, 101, 114]
      "hap :)" false (by decide) (by decide)).2⟩

/-- C7: once the lower-cased form of a word sits in the correct_words ledger,
check_word rejects any case variant of it as already found, provided the guess
passes the length, required-letter, letter-subset and dictionary checks. -/
theorem case_variant_of_found_word_rejected (guess : List Nat) (gs : GameState)
    (wl : WordList) (b : Nat)
    (hlen : ¬ guess.length < 4)
    (hbits : wordToBits guess = some b)
    (hreq : b &&& gs.required_bit ≠ 0)
    (hsub : (b ^^^ gs.target_bits) &&& b = 0)
    (hdict : toAsciiLower guess ∈ wl.all_valid_words)
    (hfound : toAsciiLower guess ∈ gs.correct_words) :
    checkWord guess gs wl = some (false, "was already found", false) := by
  unfold checkWord
  rw [if_neg hlen, hbits]
  simp [hreq, hsub, hdict, hfound]

/-- Witness for C7: otter is recorded, the upper-case guess OTTER is rejected
as already found. -/
theorem case_variant_of_found_word_rejected_witness :
    checkWord [79, 84, 84, 69, 82]
      ⟨[], 671760, 111, 16384, [[111, 116, 116, 101, 114]]⟩
      ⟨[[111, 116, 116, 101, 114]], []⟩ = some (false, "was already found", false) :=
  case_variant_of_found_word_rejected [79, 84, 84, 69, 82]
    ⟨[], 671760, 111, 16384, [[111, 116, 116, 101, 114]]⟩
    ⟨[[111, 116, 116, 101, 114]], []⟩ 671760 (by decide) (by decide) (by decide)
    (by decide) (by decide) (by decide)

/-- C8 counterexample: on an empty word source the construction returns the
empty resource rather than any error value, and the pangram selection of
setup_goals then finds nothing to choose, which the code resolves by a panic
on unwrap rather than by an error return. -/
theorem setup_word_list_empty_source_no_error :
    setupWordList [] = ⟨[], []⟩ ∧ choosePangram (setupWordList []) 0 = none := by
  constructor
  · rfl
  · rfl

/-- C8 amended: dictionary construction cannot fail and returns no error
value: when no token is usable both vectors come out empty, and whenever
potential_pangrams is empty the candidate selection of setup_goals yields
nothing for every random index, the situation the code answers with a panic
on unwrap instead of an EmptySource or NoPangramCandidates error. -/
theorem setup_word_list_no_error_panic_later (tokens : List (List Nat)) (k : Nat) :
    (tokens.filter isValidWord = [] → setupWordList tokens = ⟨[], []⟩) ∧
    ((setupWordList tokens).potential_pangrams = [] →
      choosePangram (setupWordList tokens) k = none) := by
  constructor
  · intro h
    have hfold := setupWordList_foldl tokens ⟨[], []⟩
    unfold setupWordList
    rw [hfold]
    have hsubl : List.Sublist
        (tokens.filter (fun w => isValidWord w && isPangramToken w))
        (tokens.filter isValidWord) :=
      List.monotone_filter_right _
        (fun a ha => (Bool.and_eq_true _ _ |>.mp ha).1)
    rw [h] at hsubl
    have h2 := List.sublist_nil.mp hsubl
    rw [h, h2]
    simp
  · intro h
    unfold choosePangram
    rw [h]
    cases k <;> rfl

/-- Witness for C8 on the empty token stream. -/
theorem setup_word_list_no_error_witness :
    setupWordList [] = ⟨[], []⟩ ∧ choosePangram (setupWordList []) 1 = none :=
  ⟨(setup_word_list_no_error_panic_later [] 1).1 rfl,
    (setup_word_list_no_error_panic_later [] 1).2 rfl⟩

/-- C9: check_word is a pure function of the guess, the puzzle fields, the
dictionary and the ledger: a second call in a state whose relevant fields are
unchanged, in particular with no recording in between, returns the very same
outcome.  Mutation of the inputs is impossible by construction, since the Rust
function takes them behind shared references. -/
theorem check_word_pure_function (word : List Nat) (gs gs2 : GameState)
    (wl wl2 : WordList)
    (h1 : gs2.required_bit = gs.required_bit)
    (h2 : gs2.target_bits = gs.target_bits)
    (h3 : gs2.correct_words = gs.correct_words)
    (h4 : wl2.all_valid_words = wl.all_valid_words) :
    checkWord word gs2 wl2 = checkWord word gs wl := by
  unfold checkWord
  rw [h1, h2, h3, h4]

/-- Witness for C9: two states equal on the relevant fields, differing in the
display string and in the pangram store, validate otter identically. -/
theorem check_word_pure_function_witness :
    checkWord [111, 116, 116, 101, 114] ⟨[90], 671760, 111, 16384, []⟩
        ⟨[[111, 116, 116, 101, 114]], [[90]]⟩ =
      checkWord [111, 116, 116, 101, 114] ⟨[], 671760, 111, 16384, []⟩
        ⟨[[111, 116, 116, 101, 114]], []⟩ :=
  check_word_pure_function [111, 116, 116, 101, 114]
    ⟨[], 671760, 111, 16384, []⟩ ⟨[90], 671760, 111, 16384, []⟩
    ⟨[[111, 116, 116, 101, 114]], []⟩ ⟨[[111, 116, 116, 101, 114]], [[90]]⟩
    rfl rfl rfl rfl

/-- C10: a byte that is no ASCII letter makes word_to_bits panic, modelled as
none, and check_word on a guess of length at least four containing such a byte
diverges instead of producing an outcome. -/
theorem non_letter_byte_panics (word : List Nat) (c : Nat)
    (hc : c ∈ word) (hnl : isAsciiAlphabetic c = false) :
    wordToBits word = none ∧
      (4 ≤ word.length → ∀ gs wl, checkWord word gs wl = none) := by
  have hidx : alphabetIndex c = none := by
    simp only [isAsciiAlphabetic, Bool.or_eq_false_iff] at hnl
    simp [alphabetIndex, hnl.1, hnl.2]
  have h1 : wordToBits word = none := wordToBitsAux_none hc hidx 0
  refine ⟨h1, ?_⟩
  intro hlen gs wl
  unfold checkWord
  rw [if_neg (by omega), h1]

/-- Witness for C10: the five-byte guess with the digit byte 51 in the middle
panics in word_to_bits and gives check_word no outcome. -/
theorem non_letter_byte_panics_witness :
    (51 : Nat) ∈ [111, 116, 116, 51, 114] ∧ isAsciiAlphabetic 51 = false ∧
    wordToBits [111, 116, 116, 51, 114] = none ∧
    checkWord [111, 116, 116, 51, 114] ⟨[], 671760, 111, 16384, []⟩ ⟨[], []⟩ = none :=
  ⟨by decide, by decide,
    (non_letter_byte_panics [111, 116, 116, 51, 114] 51 (by decide) (by decide)).1,
    (non_letter_byte_panics [111, 116, 116, 51, 114] 51 (by decide) (by decide)).2
      (by decide) ⟨[], 671760, 111, 16384, []⟩ ⟨[], []⟩⟩

end SpellingTiles
